import Mathlib

/-!
Shallow embedding of the Kalshi EV agent's core trading engine:
edge detection (`detectEdges`, `findArbitrageOpportunities`),
Kelly-criterion position sizing with circuit breakers
(`sizePosition`, `generateSignals`, `resetHourlyCounterIfNeeded`),
and the paper-trading ledger (`execute`, `settle`, `getPortfolio`).

Numbers are modelled as exact rationals; prices are in cents,
timestamps in integer milliseconds. Class instance state becomes
explicit state records threaded through the functions.
-/

namespace KalshiEV

/-- Side of a binary contract: YES or NO. -/
inductive Side where
  | yes
  | no
deriving DecidableEq, Repr

/-- A Kalshi market snapshot: quotes in integer cents (0 = unquoted). -/
structure KalshiMarket where
  ticker : String
  title : String
  yesAsk : ℚ
  yesBid : ℚ
  noAsk : ℚ
  noBid : ℚ
deriving DecidableEq, Repr

/-- A model probability estimate for one market. -/
structure Forecast where
  ticker : String
  modelProbYes : ℚ
  confidence : ℚ
deriving DecidableEq, Repr

/-- A detected edge: disagreement between forecast and market price for one side. -/
structure Edge where
  ticker : String
  market : KalshiMarket
  forecast : Forecast
  side : Side
  marketProb : ℚ
  modelProb : ℚ
  edge : ℚ
  expectedValue : ℚ
deriving DecidableEq, Repr

/-- A risk-approved sized trade signal. -/
structure TradeSignal where
  edge : Edge
  side : Side
  contracts : ℤ
  limitPrice : ℚ
  kellyFraction : ℚ
  positionSizeUsd : ℚ
deriving DecidableEq, Repr

/-- An open holding in one contract. -/
structure Position where
  ticker : String
  side : Side
  contracts : ℤ
  avgPrice : ℚ
  currentPrice : ℚ
  marketTitle : String
deriving DecidableEq, Repr

/-- An aggregate portfolio snapshot. -/
structure Portfolio where
  balanceUsd : ℚ
  positions : List Position
  totalExposureUsd : ℚ
  realizedPnl : ℚ
  unrealizedPnl : ℚ
deriving DecidableEq, Repr

/-- A paper-trade execution record (UUID and wall-clock timestamp omitted). -/
structure TradeRecord where
  signal : TradeSignal
  fillPrice : Option ℚ
  filled : Bool
deriving DecidableEq, Repr

/-! ## Edge detector -/

/-- Market-implied probability for a side: midpoint of bid/ask when both are
quoted, otherwise whichever quote is nonzero, defaulting to 50 (i.e. 0.50). -/
def getImpliedProb (market : KalshiMarket) (side : Side) : ℚ :=
  match side with
  | .yes =>
    if market.yesBid > 0 ∧ market.yesAsk > 0 then
      ((market.yesBid + market.yesAsk) / 2) / 100
    else
      (if market.yesAsk ≠ 0 then market.yesAsk
       else if market.yesBid ≠ 0 then market.yesBid
       else 50) / 100
  | .no =>
    if market.noBid > 0 ∧ market.noAsk > 0 then
      ((market.noBid + market.noAsk) / 2) / 100
    else
      (if market.noAsk ≠ 0 then market.noAsk
       else if market.noBid ≠ 0 then market.noBid
       else 50) / 100

/-- Assemble an `Edge` record; expected value per dollar risked is
`modelProb / cost - 1`, guarded to 0 when the cost is not positive. -/
def buildEdge (market : KalshiMarket) (forecast : Forecast) (side : Side)
    (marketProb modelProb edge : ℚ) : Edge :=
  let cost := marketProb
  let ev := if cost > 0 then modelProb * 1 / cost - 1 else 0
  { ticker := market.ticker
    market := market
    forecast := forecast
    side := side
    marketProb := marketProb
    modelProb := modelProb
    edge := edge
    expectedValue := ev }

/-- Lookup a forecast by ticker; a JS `Map` built from a list keeps the last
entry for a duplicated key, hence `getLast?` over the matching entries. -/
def forecastLookup (forecasts : List Forecast) (t : String) : Option Forecast :=
  (forecasts.filter (fun f => f.ticker == t)).getLast?

/-- Edges produced for a single (market, forecast) pair: the YES and NO sides
are checked independently against the minimum-edge threshold. -/
def detectEdgesForMarket (minEdge : ℚ) (forecasts : List Forecast)
    (market : KalshiMarket) : List Edge :=
  match forecastLookup forecasts market.ticker with
  | none => []
  | some forecast =>
    let marketProbYes := getImpliedProb market .yes
    let marketProbNo := getImpliedProb market .no
    let yesEdge := forecast.modelProbYes - marketProbYes
    let modelProbNo := 1 - forecast.modelProbYes
    let noEdge := modelProbNo - marketProbNo
    (if yesEdge > minEdge then
      [buildEdge market forecast .yes marketProbYes forecast.modelProbYes yesEdge]
     else []) ++
    (if noEdge > minEdge then
      [buildEdge market forecast .no marketProbNo modelProbNo noEdge]
     else [])

/-- Detect edges above the threshold, sorted by descending edge magnitude. -/
def detectEdges (minEdge : ℚ) (markets : List KalshiMarket)
    (forecasts : List Forecast) : List Edge :=
  ((markets.map (detectEdgesForMarket minEdge forecasts)).flatten).mergeSort
    (fun a b => b.edge ≤ a.edge)

/-- Classification of a structural mispricing. -/
inductive ArbType where
  | guaranteed_profit
  | wide_spread
deriving DecidableEq, Repr

/-- An arbitrage / wide-spread finding. -/
structure ArbOpp where
  ticker : String
  title : String
  yesAsk : ℚ
  noAsk : ℚ
  total : ℚ
  type : ArbType
deriving DecidableEq, Repr

/-- Findings for a single market: skip if either ask is 0; guaranteed profit
when `total < 98`; wide spread when `total > 115` with both asks below 95. -/
def arbForMarket (m : KalshiMarket) : List ArbOpp :=
  if m.yesAsk = 0 ∨ m.noAsk = 0 then []
  else
    let total := m.yesAsk + m.noAsk
    (if total < 98 then
      [{ ticker := m.ticker, title := m.title, yesAsk := m.yesAsk,
         noAsk := m.noAsk, total := total, type := .guaranteed_profit }]
     else []) ++
    (if total > 115 ∧ m.yesAsk < 95 ∧ m.noAsk < 95 then
      [{ ticker := m.ticker, title := m.title, yesAsk := m.yesAsk,
         noAsk := m.noAsk, total := total, type := .wide_spread }]
     else [])

/-- Sort order used by the arbitrage scan: guaranteed profits first by
ascending total, then wide spreads by descending total. -/
def arbBefore (a b : ArbOpp) : Bool :=
  if a.type ≠ b.type then a.type = .guaranteed_profit
  else if a.type = .guaranteed_profit then a.total ≤ b.total
  else b.total ≤ a.total

/-- Find guaranteed-profit and wide-spread anomalies across all markets. -/
def findArbitrageOpportunities (markets : List KalshiMarket) : List ArbOpp :=
  ((markets.map arbForMarket).flatten).mergeSort arbBefore

/-! ## Forecaster clamp (response parsing, upstream of the core) -/

/-- Numeric clamp used by the LLM forecaster's response parser. -/
def clamp (val lo hi : ℚ) : ℚ := max lo (min hi val)

/-- Apply the forecaster's probability clamp into [0.01, 0.99] to a forecast. -/
def clampForecast (f : Forecast) : Forecast :=
  { f with modelProbYes := clamp f.modelProbYes (1/100) (99/100) }

/-! ## Risk manager -/

/-- Mutable state of the risk manager: configuration plus circuit-breaker
counters. Timestamps are in integer milliseconds. -/
structure RiskState where
  kellyFraction : ℚ
  maxPositionUsd : ℚ
  maxExposureUsd : ℚ
  dailyLoss : ℚ
  dailyLossLimit : ℚ
  tradesThisHour : ℕ
  maxTradesPerHour : ℕ
  lastHourReset : ℤ
deriving DecidableEq, Repr

/-- Zero the hourly trade counter and restart the window at `now` once more
than 3600000 ms have elapsed since the stored window start. -/
def resetHourlyCounterIfNeeded (s : RiskState) (now : ℤ) : RiskState :=
  if now - s.lastHourReset > 3600000 then
    { s with tradesThisHour := 0, lastHourReset := now }
  else s

/-- Kelly-criterion position sizing for one edge. Refuses on non-positive net
odds or Kelly fraction, applies fractional Kelly, clamps the dollar size to
the per-position cap, the remaining exposure, and a $1 floor (in that order),
converts to an integer contract count, and recomputes the realized size. -/
def sizePosition (kellyFraction maxPositionUsd : ℚ) (edge : Edge)
    (bankroll remainingExposure : ℚ) : Option TradeSignal :=
  let p := edge.modelProb
  let q := 1 - p
  let cost := edge.marketProb
  let payout : ℚ := 1
  let b := (payout - cost) / cost
  if b ≤ 0 then none
  else
    let fullKelly := (p * b - q) / b
    if fullKelly ≤ 0 then none
    else
      let adjustedKelly := fullKelly * kellyFraction
      let size0 := bankroll * adjustedKelly
      let size1 := min size0 maxPositionUsd
      let size2 := min size1 remainingExposure
      let size3 := max size2 1
      let pricePerContract :=
        match edge.side with
        | .yes => edge.market.yesAsk
        | .no => edge.market.noAsk
      if pricePerContract ≤ 0 then none
      else
        let contracts := ⌊size3 * 100 / pricePerContract⌋
        if contracts ≤ 0 then none
        else
          some { edge := edge
                 side := edge.side
                 contracts := contracts
                 limitPrice := pricePerContract
                 kellyFraction := adjustedKelly
                 positionSizeUsd := (contracts : ℚ) * pricePerContract / 100 }

/-- Per-edge loop of `generateSignals`: threads the hourly trade counter and
the remaining exposure; stops entirely on the hourly cap or exhausted
exposure, skips low-confidence edges and tickers already held. -/
def signalLoop (kellyFraction maxPositionUsd : ℚ) (maxTradesPerHour : ℕ)
    (portfolio : Portfolio) :
    List Edge → ℕ → ℚ → List TradeSignal × ℕ
  | [], trades, _ => ([], trades)
  | e :: rest, trades, remaining =>
    if trades ≥ maxTradesPerHour then ([], trades)
    else if remaining ≤ 0 then ([], trades)
    else if e.forecast.confidence < 3/10 then
      signalLoop kellyFraction maxPositionUsd maxTradesPerHour portfolio
        rest trades remaining
    else if portfolio.positions.any (fun p => p.ticker == e.ticker) then
      signalLoop kellyFraction maxPositionUsd maxTradesPerHour portfolio
        rest trades remaining
    else
      match sizePosition kellyFraction maxPositionUsd e portfolio.balanceUsd
          remaining with
      | some sig =>
        let r := signalLoop kellyFraction maxPositionUsd maxTradesPerHour
          portfolio rest (trades + 1) (remaining - sig.positionSizeUsd)
        (sig :: r.1, r.2)
      | none =>
        signalLoop kellyFraction maxPositionUsd maxTradesPerHour portfolio
          rest trades remaining

/-- Convert edges into sized trade signals, applying the daily-loss hard stop,
the lazy hourly-window reset, and all per-edge gates; returns the signals and
the updated risk state. -/
def generateSignals (s : RiskState) (now : ℤ) (edges : List Edge)
    (portfolio : Portfolio) : List TradeSignal × RiskState :=
  let s := resetHourlyCounterIfNeeded s now
  if s.dailyLoss ≥ s.dailyLossLimit then ([], s)
  else
    let r := signalLoop s.kellyFraction s.maxPositionUsd s.maxTradesPerHour
      portfolio edges s.tradesThisHour
      (s.maxExposureUsd - portfolio.totalExposureUsd)
    (r.1, { s with tradesThisHour := r.2 })

/-! ## Paper trader -/

/-- Mutable state of the paper-trading ledger. The positions list models a
JS `Map` keyed by ticker (insertion order, unique keys). -/
structure TraderState where
  balance : ℚ
  initialBalance : ℚ
  positions : List Position
deriving DecidableEq, Repr

/-- Write `newPos` under key `t`, as a JS `Map.set`: replace the existing
entry in place, or append a new entry. -/
def mapSet (ps : List Position) (t : String) (newPos : Position) :
    List Position :=
  if ps.any (fun p => p.ticker == t) then
    ps.map (fun p => if p.ticker == t then newPos else p)
  else ps ++ [newPos]

/-- Execute a trade signal in paper mode: refuse (unfilled, no mutation) when
the cost exceeds cash; otherwise debit cash and create or cost-average the
position. -/
def execute (s : TraderState) (sig : TradeSignal) : TradeRecord × TraderState :=
  let cost := (sig.contracts : ℚ) * sig.limitPrice / 100
  if cost > s.balance then
    ({ signal := sig, fillPrice := none, filled := false }, s)
  else
    let fresh : Position :=
      { ticker := sig.edge.ticker
        side := sig.side
        contracts := sig.contracts
        avgPrice := sig.limitPrice
        currentPrice := sig.limitPrice
        marketTitle := sig.edge.market.title }
    let positions' :=
      match s.positions.find? (fun p => p.ticker == sig.edge.ticker) with
      | some existing =>
        if existing.side = sig.side then
          let totalContracts := existing.contracts + sig.contracts
          let newAvg := (existing.avgPrice * existing.contracts
            + sig.limitPrice * sig.contracts) / totalContracts
          mapSet s.positions sig.edge.ticker
            { existing with contracts := totalContracts, avgPrice := newAvg }
        else mapSet s.positions sig.edge.ticker fresh
      | none => mapSet s.positions sig.edge.ticker fresh
    ({ signal := sig, fillPrice := some sig.limitPrice, filled := true },
     { s with balance := s.balance - cost, positions := positions' })

/-- Settle a resolved market: pay $1 per contract on a win, nothing on a
loss, remove the position, and return the realized P&L. -/
def settle (s : TraderState) (ticker : String) (result : Side) :
    ℚ × TraderState :=
  match s.positions.find? (fun p => p.ticker == ticker) with
  | none => (0, s)
  | some position =>
    let pnl :=
      if position.side = result then
        (position.contracts : ℚ)
          - (position.contracts : ℚ) * position.avgPrice / 100
      else
        -((position.contracts : ℚ) * position.avgPrice) / 100
    let payout := (position.contracts : ℚ)
      * (if position.side = result then 100 else 0) / 100
    (pnl,
     { s with balance := s.balance + payout
              positions := s.positions.filter (fun p => ¬ p.ticker == ticker) })

/-- Sum of cost bases across open positions. -/
def totalExposure (ps : List Position) : ℚ :=
  ps.foldl (fun sum p => sum + (p.contracts : ℚ) * p.avgPrice / 100) 0

/-- Snapshot of the current portfolio state. -/
def getPortfolio (s : TraderState) : Portfolio :=
  { balanceUsd := s.balance
    positions := s.positions
    totalExposureUsd := totalExposure s.positions
    realizedPnl := s.balance - s.initialBalance + totalExposure s.positions
    unrealizedPnl := 0 }

/-! ## Concrete instances used by witnesses and counterexamples -/

/-- Market with YES midpoint 56¢ and NO midpoint 44¢. -/
def mEx : KalshiMarket :=
  { ticker := "T1", title := "t1", yesAsk := 58, yesBid := 54,
    noAsk := 46, noBid := 42 }

/-- Forecast of 62% YES for `mEx`. -/
def fEx62 : Forecast := { ticker := "T1", modelProbYes := 31/50, confidence := 4/5 }

/-- Edge with model 60% against market cost 50%, YES side at a 50¢ ask. -/
def eC1 : Edge :=
  { ticker := "T1", market := mEx, forecast := fEx62, side := .yes,
    marketProb := 1/2, modelProb := 3/5, edge := 1/10, expectedValue := 1/5 }

/-- Edge with model 50% against market cost 50%: zero Kelly fraction. -/
def eC2 : Edge :=
  { ticker := "T1", market := mEx, forecast := fEx62, side := .yes,
    marketProb := 1/2, modelProb := 1/2, edge := 0, expectedValue := 0 }

/-- Signal produced by `sizePosition (1/4) 50 eC1 1000 500`: the $50 Kelly
size at a 58¢ ask floors to 86 contracts realizing $49.88. -/
def sigC1 : TradeSignal :=
  { edge := eC1, side := .yes, contracts := 86, limitPrice := 58,
    kellyFraction := 1/20, positionSizeUsd := 1247/25 }

/-- Market priced at yesAsk=45, noAsk=50: total 95, guaranteed profit. -/
def mArb1 : KalshiMarket :=
  { ticker := "A1", title := "a1", yesAsk := 45, yesBid := 40,
    noAsk := 50, noBid := 48 }

/-- Market priced at yesAsk=60, noAsk=60: total 120, wide spread. -/
def mArb2 : KalshiMarket :=
  { ticker := "A2", title := "a2", yesAsk := 60, yesBid := 30,
    noAsk := 60, noBid := 30 }

/-- Market priced at yesAsk=99, noAsk=30: total 129 but one ask ≥ 95. -/
def mArb3 : KalshiMarket :=
  { ticker := "A3", title := "a3", yesAsk := 99, yesBid := 1,
    noAsk := 30, noBid := 1 }

/-- Risk state whose hourly trade counter has reached the cap. -/
def rsC3 : RiskState :=
  { kellyFraction := 1/4, maxPositionUsd := 50, maxExposureUsd := 500,
    dailyLoss := 0, dailyLossLimit := 50, tradesThisHour := 20,
    maxTradesPerHour := 20, lastHourReset := 0 }

/-- Risk state whose daily loss has reached the limit. -/
def rsC3Loss : RiskState :=
  { kellyFraction := 1/4, maxPositionUsd := 50, maxExposureUsd := 500,
    dailyLoss := 100, dailyLossLimit := 50, tradesThisHour := 0,
    maxTradesPerHour := 20, lastHourReset := 0 }

/-- Risk state with a fresh hourly counter, otherwise like `rsC3`. -/
def rsC3Open : RiskState :=
  { kellyFraction := 1/4, maxPositionUsd := 50, maxExposureUsd := 500,
    dailyLoss := 0, dailyLossLimit := 50, tradesThisHour := 0,
    maxTradesPerHour := 20, lastHourReset := 0 }

/-- Empty portfolio with a $1000 bankroll. -/
def pf0 : Portfolio :=
  { balanceUsd := 1000, positions := [], totalExposureUsd := 0,
    realizedPnl := 0, unrealizedPnl := 0 }

/-- Signal buying 10 YES contracts of `mEx` at 40¢. -/
def sig40 : TradeSignal :=
  { edge := eC1, side := .yes, contracts := 10, limitPrice := 40,
    kellyFraction := 1/20, positionSizeUsd := 4 }

/-- Signal buying 10 YES contracts of `mEx` at 60¢. -/
def sig60 : TradeSignal :=
  { edge := eC1, side := .yes, contracts := 10, limitPrice := 60,
    kellyFraction := 1/20, positionSizeUsd := 6 }

/-- Position of 10 YES contracts of "T1" at an average of 40¢. -/
def posA : Position :=
  { ticker := "T1", side := .yes, contracts := 10, avgPrice := 40,
    currentPrice := 40, marketTitle := "t1" }

/-- Ledger holding `posA` after the 40¢ fill out of a $1000 start. -/
def sA : TraderState := { balance := 996, initialBalance := 1000, positions := [posA] }

/-- Signal buying 1 NO contract of "T1" at 40¢ (opposite side of `posC10`). -/
def sigNo : TradeSignal :=
  { edge := eC1, side := .no, contracts := 1, limitPrice := 40,
    kellyFraction := 1/20, positionSizeUsd := 2/5 }

/-- Position of 10 YES contracts of "T1" at an average of 50¢. -/
def posC10 : Position :=
  { ticker := "T1", side := .yes, contracts := 10, avgPrice := 50,
    currentPrice := 50, marketTitle := "t1" }

/-- Ledger holding `posC10` with $100 cash. -/
def tsC10 : TraderState :=
  { balance := 100, initialBalance := 1000, positions := [posC10] }

/-- Market with YES midpoint 94.5¢ and NO midpoint 5¢. -/
def mC8 : KalshiMarket :=
  { ticker := "T8", title := "t8", yesAsk := 95, yesBid := 94,
    noAsk := 6, noBid := 4 }

/-- Out-of-range forecast: probability 1.0, above the 0.99 clamp bound. -/
def fC8 : Forecast := { ticker := "T8", modelProbYes := 1, confidence := 1 }

/-! ## Theorems -/

/-- C2: `sizePosition` never returns a signal when the net odds
`b = (1 - cost)/cost` are ≤ 0 or when the full Kelly fraction
`f = (p·b - (1-p))/b` is ≤ 0, where `p` is the model probability for the
chosen side and `cost` the market-implied probability for that side. -/
theorem sizePosition_refuses_nonpositive_kelly
    (kellyFraction maxPositionUsd bankroll remainingExposure : ℚ) (edge : Edge)
    (h : (1 - edge.marketProb) / edge.marketProb ≤ 0 ∨
      (edge.modelProb * ((1 - edge.marketProb) / edge.marketProb)
          - (1 - edge.modelProb)) / ((1 - edge.marketProb) / edge.marketProb)
        ≤ 0) :
    sizePosition kellyFraction maxPositionUsd edge bankroll remainingExposure
      = none := by
  unfold sizePosition
  rcases h with hb | hf
  · simp [hb]
  · by_cases hb : (1 - edge.marketProb) / edge.marketProb ≤ 0
    · simp [hb]
    · simp [hb, hf]

/-- Witness for C2: with p = 0.5 and cost = 0.5 the net odds are b = 1 and
the full Kelly fraction is 0, so no signal is produced. -/
theorem sizePosition_refuses_nonpositive_kelly_witness :
    ((1 - eC2.marketProb) / eC2.marketProb ≤ 0 ∨
      (eC2.modelProb * ((1 - eC2.marketProb) / eC2.marketProb)
          - (1 - eC2.modelProb)) / ((1 - eC2.marketProb) / eC2.marketProb)
        ≤ 0) ∧
    sizePosition (1/4) 100 eC2 1000 500 = none := by
  have h : (1 - eC2.marketProb) / eC2.marketProb ≤ 0 ∨
      (eC2.modelProb * ((1 - eC2.marketProb) / eC2.marketProb)
          - (1 - eC2.modelProb)) / ((1 - eC2.marketProb) / eC2.marketProb)
        ≤ 0 := by
    right
    norm_num [eC2]
  exact ⟨h, sizePosition_refuses_nonpositive_kelly (1/4) 100 1000 500 eC2 h⟩

/-- C6: when a signal's cost `contracts × limitPrice / 100` exceeds the cash
balance, `execute` returns an unfilled record and mutates no state. -/
theorem execute_insufficient_funds (s : TraderState) (sig : TradeSignal)
    (h : (sig.contracts : ℚ) * sig.limitPrice / 100 > s.balance) :
    (execute s sig).1.filled = false ∧ (execute s sig).2 = s := by
  unfold execute
  simp [h]

/-- Witness for C6: a signal costing $58 against a $10 balance is rejected
without touching the ledger. -/
theorem execute_insufficient_funds_witness :
    (sigC1.contracts : ℚ) * sigC1.limitPrice / 100 >
      (TraderState.mk 10 10 []).balance ∧
    (execute (TraderState.mk 10 10 []) sigC1).1.filled = false ∧
    (execute (TraderState.mk 10 10 []) sigC1).2 = TraderState.mk 10 10 [] := by
  have h : (sigC1.contracts : ℚ) * sigC1.limitPrice / 100 >
      (TraderState.mk 10 10 []).balance := by
    norm_num [sigC1]
  exact ⟨h, execute_insufficient_funds (TraderState.mk 10 10 []) sigC1 h⟩

/-- C5: settling a contract with an open position pays `contracts × $1` minus
the cost basis on a win (crediting the full payout to cash), loses the whole
cost basis on a loss (crediting nothing), and removes the position either
way. -/
theorem settle_spec (s : TraderState) (ticker : String) (result : Side)
    (position : Position)
    (h : s.positions.find? (fun p => p.ticker == ticker) = some position) :
    ((settle s ticker result).1 =
      if position.side = result then
        (position.contracts : ℚ)
          - (position.contracts : ℚ) * position.avgPrice / 100
      else
        -((position.contracts : ℚ) * position.avgPrice / 100)) ∧
    ((settle s ticker result).2.balance =
      if position.side = result then s.balance + (position.contracts : ℚ)
      else s.balance) ∧
    (settle s ticker result).2.positions =
      s.positions.filter (fun p => ¬ p.ticker == ticker) := by
  simp only [settle, h]
  by_cases hside : position.side = result
  · simp only [if_pos hside]
    exact ⟨trivial, by ring, trivial⟩
  · simp only [if_neg hside]
    exact ⟨by ring, by ring, trivial⟩

/-- Witness for C5: 20 contracts at average 50¢ settle for +$10 to their own
side and -$10 to the opposite side, with the position removed both times. -/
theorem settle_spec_witness :
    ((TraderState.mk 100 100 [Position.mk "T" .yes 20 50 50 "t"]).positions.find?
        (fun p => p.ticker == "T") = some (Position.mk "T" .yes 20 50 50 "t")) ∧
    (settle (TraderState.mk 100 100 [Position.mk "T" .yes 20 50 50 "t"]) "T" .yes).1 = 10 ∧
    (settle (TraderState.mk 100 100 [Position.mk "T" .yes 20 50 50 "t"]) "T" .yes).2.balance = 120 ∧
    (settle (TraderState.mk 100 100 [Position.mk "T" .yes 20 50 50 "t"]) "T" .no).1 = -10 ∧
    (settle (TraderState.mk 100 100 [Position.mk "T" .yes 20 50 50 "t"]) "T" .no).2.balance = 100 ∧
    (settle (TraderState.mk 100 100 [Position.mk "T" .yes 20 50 50 "t"]) "T" .yes).2.positions = [] := by
  have h : (TraderState.mk 100 100 [Position.mk "T" .yes 20 50 50 "t"]).positions.find?
      (fun p => p.ticker == "T") = some (Position.mk "T" .yes 20 50 50 "t") := by
    simp
  have hwin := settle_spec (TraderState.mk 100 100 [Position.mk "T" .yes 20 50 50 "t"])
    "T" .yes (Position.mk "T" .yes 20 50 50 "t") h
  have hloss := settle_spec (TraderState.mk 100 100 [Position.mk "T" .yes 20 50 50 "t"])
    "T" .no (Position.mk "T" .yes 20 50 50 "t") h
  refine ⟨h, ?_, ?_, ?_, ?_, ?_⟩
  · rw [hwin.1, if_pos rfl]; norm_num
  · rw [hwin.2.1, if_pos rfl]; norm_num
  · rw [hloss.1, if_neg (by decide)]; norm_num
  · rw [hloss.2.1, if_neg (by decide)]
  · rw [hwin.2.2]; simp

/-- C1: a signal produced by `sizePosition` carries a contract count equal to
`⌊size × 100 / pricePerContract⌋` where the dollar size is
`bankroll × fullKelly × kellyFraction` clamped first to the per-position cap,
then to the remaining exposure, then up to the $1 floor, and where
`pricePerContract` is the same-side ask; the count is at least 1, the limit
price is that ask, and `positionSizeUsd` is recomputed from the integer
count; when the floor of that quotient is 0, no signal is produced. -/
theorem sizePosition_formula
    (kellyFraction maxPositionUsd bankroll remainingExposure : ℚ)
    (edge : Edge) :
    (∀ sig,
      sizePosition kellyFraction maxPositionUsd edge bankroll remainingExposure
          = some sig →
        sig.contracts =
          ⌊(max (min (min (bankroll * (((edge.modelProb
              * ((1 - edge.marketProb) / edge.marketProb)
              - (1 - edge.modelProb)) / ((1 - edge.marketProb) / edge.marketProb))
              * kellyFraction)) maxPositionUsd) remainingExposure) 1) * 100
            / (match edge.side with
               | .yes => edge.market.yesAsk
               | .no => edge.market.noAsk)⌋ ∧
        1 ≤ sig.contracts ∧
        sig.limitPrice =
          (match edge.side with
           | .yes => edge.market.yesAsk
           | .no => edge.market.noAsk) ∧
        sig.kellyFraction =
          ((edge.modelProb * ((1 - edge.marketProb) / edge.marketProb)
            - (1 - edge.modelProb)) / ((1 - edge.marketProb) / edge.marketProb))
            * kellyFraction ∧
        sig.positionSizeUsd = (sig.contracts : ℚ) * sig.limitPrice / 100) ∧
    (⌊(max (min (min (bankroll * (((edge.modelProb
        * ((1 - edge.marketProb) / edge.marketProb)
        - (1 - edge.modelProb)) / ((1 - edge.marketProb) / edge.marketProb))
        * kellyFraction)) maxPositionUsd) remainingExposure) 1) * 100
      / (match edge.side with
         | .yes => edge.market.yesAsk
         | .no => edge.market.noAsk)⌋ = 0 →
      sizePosition kellyFraction maxPositionUsd edge bankroll remainingExposure
        = none) := by
  have main : ∀ sig,
      sizePosition kellyFraction maxPositionUsd edge bankroll remainingExposure
          = some sig →
        sig.contracts =
          ⌊(max (min (min (bankroll * (((edge.modelProb
              * ((1 - edge.marketProb) / edge.marketProb)
              - (1 - edge.modelProb)) / ((1 - edge.marketProb) / edge.marketProb))
              * kellyFraction)) maxPositionUsd) remainingExposure) 1) * 100
            / (match edge.side with
               | .yes => edge.market.yesAsk
               | .no => edge.market.noAsk)⌋ ∧
        1 ≤ sig.contracts ∧
        sig.limitPrice =
          (match edge.side with
           | .yes => edge.market.yesAsk
           | .no => edge.market.noAsk) ∧
        sig.kellyFraction =
          ((edge.modelProb * ((1 - edge.marketProb) / edge.marketProb)
            - (1 - edge.modelProb)) / ((1 - edge.marketProb) / edge.marketProb))
            * kellyFraction ∧
        sig.positionSizeUsd = (sig.contracts : ℚ) * sig.limitPrice / 100 := by
    intro sig h
    simp only [sizePosition] at h
    split_ifs at h with hb hf hp hc
    all_goals
      first
        | exact Option.noConfusion h
        | (injection h with h'
           subst h'
           dsimp only
           exact ⟨rfl, by omega, rfl, rfl, rfl⟩)
  refine ⟨main, fun h0 => ?_⟩
  cases hres : sizePosition kellyFraction maxPositionUsd edge bankroll
    remainingExposure with
  | none => rfl
  | some sig =>
    obtain ⟨hc, hone, -, -, -⟩ := main sig hres
    exfalso
    omega

end KalshiEV

namespace KalshiEV

/-- Witness for C1: sizing the 60%-model, 50¢-cost YES edge with quarter
Kelly, a $50 cap, a $1000 bankroll and $500 headroom yields 86 contracts at
the 58¢ ask realizing $49.88. -/
theorem sizePosition_formula_witness :
    sizePosition (1/4) 50 eC1 1000 500 = some sigC1 ∧
    sigC1.contracts = 86 ∧ 1 ≤ sigC1.contracts ∧
    sigC1.positionSizeUsd = (86 : ℚ) * 58 / 100 := by
  have h : sizePosition (1/4) 50 eC1 1000 500 = some sigC1 := by
    norm_num [sizePosition, eC1, mEx, fEx62, sigC1]
  have hm := (sizePosition_formula (1/4) 50 1000 500 eC1).1 sigC1 h
  exact ⟨h, by norm_num [sigC1], hm.2.1, by norm_num [sigC1]⟩

end KalshiEV

namespace KalshiEV

/-- Membership in `detectEdges` is membership in some market's per-market
edges: the final sort only permutes. -/
theorem mem_detectEdges_iff (minEdge : ℚ) (markets : List KalshiMarket)
    (forecasts : List Forecast) (e : Edge) :
    e ∈ detectEdges minEdge markets forecasts ↔
      ∃ m ∈ markets, e ∈ detectEdgesForMarket minEdge forecasts m := by
  unfold detectEdges
  rw [(List.mergeSort_perm _ _).mem_iff]
  simp [List.mem_flatten]

/-- C4: an edge appears in `detectEdges` output only when it strictly exceeds
the threshold, and the YES and NO sides are evaluated independently: whenever
a market's matched forecast puts the YES (resp. NO) side's edge above the
threshold, the corresponding edge record is in the output. -/
theorem detectEdges_threshold (minEdge : ℚ) (markets : List KalshiMarket)
    (forecasts : List Forecast) :
    (∀ e ∈ detectEdges minEdge markets forecasts, minEdge < e.edge) ∧
    (∀ m ∈ markets, ∀ f, forecastLookup forecasts m.ticker = some f →
      (minEdge < f.modelProbYes - getImpliedProb m .yes →
        buildEdge m f .yes (getImpliedProb m .yes) f.modelProbYes
          (f.modelProbYes - getImpliedProb m .yes)
          ∈ detectEdges minEdge markets forecasts) ∧
      (minEdge < (1 - f.modelProbYes) - getImpliedProb m .no →
        buildEdge m f .no (getImpliedProb m .no) (1 - f.modelProbYes)
          ((1 - f.modelProbYes) - getImpliedProb m .no)
          ∈ detectEdges minEdge markets forecasts)) := by
  constructor
  · intro e he
    rw [mem_detectEdges_iff] at he
    obtain ⟨m, _, he⟩ := he
    unfold detectEdgesForMarket at he
    cases hlk : forecastLookup forecasts m.ticker with
    | none => rw [hlk] at he; simp at he
    | some f =>
      rw [hlk] at he
      simp only [List.mem_append] at he
      rcases he with he | he <;> split_ifs at he with hgt <;>
        simp only [List.mem_singleton, List.not_mem_nil] at he <;>
        first
          | exact absurd he (fun h => h)
          | (subst he; simpa [buildEdge] using hgt)
  · intro m hm f hlk
    constructor <;> intro hgt <;>
    · rw [mem_detectEdges_iff]
      refine ⟨m, hm, ?_⟩
      unfold detectEdgesForMarket
      rw [hlk]
      simp [hgt]

/-- Witness for C4: with threshold 0.05, a 62% model against a 56¢ YES
midpoint yields an emitted YES edge of 0.06, while a 60% model (edge 0.04)
yields no edge at all. -/
theorem detectEdges_threshold_witness :
    (mEx ∈ [mEx] ∧ forecastLookup [fEx62] mEx.ticker = some fEx62 ∧
      (1:ℚ)/20 < fEx62.modelProbYes - getImpliedProb mEx .yes) ∧
    buildEdge mEx fEx62 .yes (getImpliedProb mEx .yes) fEx62.modelProbYes
      (fEx62.modelProbYes - getImpliedProb mEx .yes)
      ∈ detectEdges (1/20) [mEx] [fEx62] ∧
    detectEdges (1/20) [mEx] [{ fEx62 with modelProbYes := 3/5 }] = [] := by
  have hm : mEx ∈ [mEx] := by simp
  have hlk : forecastLookup [fEx62] mEx.ticker = some fEx62 := by
    norm_num [forecastLookup, mEx, fEx62]
  have hgt : (1:ℚ)/20 < fEx62.modelProbYes - getImpliedProb mEx .yes := by
    norm_num [fEx62, mEx, getImpliedProb]
  refine ⟨⟨hm, hlk, hgt⟩, ?_, ?_⟩
  · exact ((detectEdges_threshold (1/20) [mEx] [fEx62]).2 mEx hm fEx62 hlk).1 hgt
  · norm_num [detectEdges, detectEdgesForMarket, forecastLookup, getImpliedProb,
      mEx, fEx62, List.mergeSort]

end KalshiEV

namespace KalshiEV

/-- Membership in the arbitrage scan output is membership in some market's
findings: the final sort only permutes. -/
theorem mem_findArb_iff (markets : List KalshiMarket) (o : ArbOpp) :
    o ∈ findArbitrageOpportunities markets ↔
      ∃ m ∈ markets, o ∈ arbForMarket m := by
  unfold findArbitrageOpportunities
  rw [(List.mergeSort_perm _ _).mem_iff]
  simp [List.mem_flatten]

/-- C9: the arbitrage scan skips markets with a zero ask; every emitted
finding records `total = yesAsk + noAsk`, is guaranteed-profit exactly when
`total < 98`, and wide-spread exactly when `total > 115` with both asks below
95; conversely every market meeting one of those conditions yields the
corresponding finding. -/
theorem findArbitrageOpportunities_classification (markets : List KalshiMarket) :
    (∀ o ∈ findArbitrageOpportunities markets,
      o.yesAsk ≠ 0 ∧ o.noAsk ≠ 0 ∧ o.total = o.yesAsk + o.noAsk ∧
      (o.type = .guaranteed_profit ↔ o.total < 98) ∧
      (o.type = .wide_spread ↔
        (o.total > 115 ∧ o.yesAsk < 95 ∧ o.noAsk < 95))) ∧
    (∀ m ∈ markets, ¬ (m.yesAsk = 0 ∨ m.noAsk = 0) →
      (m.yesAsk + m.noAsk < 98 →
        ({ ticker := m.ticker, title := m.title, yesAsk := m.yesAsk,
           noAsk := m.noAsk, total := m.yesAsk + m.noAsk,
           type := .guaranteed_profit } : ArbOpp)
          ∈ findArbitrageOpportunities markets) ∧
      (m.yesAsk + m.noAsk > 115 ∧ m.yesAsk < 95 ∧ m.noAsk < 95 →
        ({ ticker := m.ticker, title := m.title, yesAsk := m.yesAsk,
           noAsk := m.noAsk, total := m.yesAsk + m.noAsk,
           type := .wide_spread } : ArbOpp)
          ∈ findArbitrageOpportunities markets)) := by
  constructor
  · intro o ho
    rw [mem_findArb_iff] at ho
    obtain ⟨m, _, ho⟩ := ho
    unfold arbForMarket at ho
    by_cases h0 : m.yesAsk = 0 ∨ m.noAsk = 0
    · rw [if_pos h0] at ho
      simp at ho
    · rw [if_neg h0] at ho
      push_neg at h0
      simp only [List.mem_append] at ho
      rcases ho with ho | ho
      · split_ifs at ho with h1
        · simp only [List.mem_singleton] at ho
          subst ho
          dsimp only
          refine ⟨h0.1, h0.2, rfl, by simp [h1], ?_⟩
          constructor
          · intro h; exact absurd h (by decide)
          · rintro ⟨h115, -, -⟩; exfalso; linarith
        · simp at ho
      · split_ifs at ho with h2
        · simp only [List.mem_singleton] at ho
          subst ho
          dsimp only
          refine ⟨h0.1, h0.2, rfl, ?_, by simp [h2]⟩
          constructor
          · intro h; exact absurd h (by decide)
          · intro hlt; exfalso; linarith [h2.1]
        · simp at ho
  · intro m hm hq
    constructor <;> intro hc <;>
    · rw [mem_findArb_iff]
      refine ⟨m, hm, ?_⟩
      unfold arbForMarket
      rw [if_neg hq]
      simp [hc]

end KalshiEV

namespace KalshiEV

/-- Witness for C9: yesAsk=45/noAsk=50 (total 95) is emitted as guaranteed
profit, yesAsk=60/noAsk=60 (total 120, both below 95) as wide spread, and
yesAsk=99/noAsk=30 (total 129, one ask ≥ 95) yields nothing. -/
theorem findArbitrageOpportunities_classification_witness :
    (mArb1 ∈ [mArb1, mArb2, mArb3] ∧ ¬ (mArb1.yesAsk = 0 ∨ mArb1.noAsk = 0) ∧
      mArb1.yesAsk + mArb1.noAsk < 98) ∧
    ({ ticker := mArb1.ticker, title := mArb1.title, yesAsk := mArb1.yesAsk,
       noAsk := mArb1.noAsk, total := mArb1.yesAsk + mArb1.noAsk,
       type := .guaranteed_profit } : ArbOpp)
      ∈ findArbitrageOpportunities [mArb1, mArb2, mArb3] ∧
    ({ ticker := mArb2.ticker, title := mArb2.title, yesAsk := mArb2.yesAsk,
       noAsk := mArb2.noAsk, total := mArb2.yesAsk + mArb2.noAsk,
       type := .wide_spread } : ArbOpp)
      ∈ findArbitrageOpportunities [mArb1, mArb2, mArb3] ∧
    findArbitrageOpportunities [mArb3] = [] := by
  have hm1 : mArb1 ∈ [mArb1, mArb2, mArb3] := by simp
  have hm2 : mArb2 ∈ [mArb1, mArb2, mArb3] := by simp
  have hq1 : ¬ (mArb1.yesAsk = 0 ∨ mArb1.noAsk = 0) := by norm_num [mArb1]
  have hq2 : ¬ (mArb2.yesAsk = 0 ∨ mArb2.noAsk = 0) := by norm_num [mArb2]
  have hlt : mArb1.yesAsk + mArb1.noAsk < 98 := by norm_num [mArb1]
  have hws : mArb2.yesAsk + mArb2.noAsk > 115 ∧ mArb2.yesAsk < 95 ∧
      mArb2.noAsk < 95 := by norm_num [mArb2]
  refine ⟨⟨hm1, hq1, hlt⟩, ?_, ?_, ?_⟩
  · exact ((findArbitrageOpportunities_classification
      [mArb1, mArb2, mArb3]).2 mArb1 hm1 hq1).1 hlt
  · exact ((findArbitrageOpportunities_classification
      [mArb1, mArb2, mArb3]).2 mArb2 hm2 hq2).2 hws
  · norm_num [findArbitrageOpportunities, arbForMarket, mArb3, List.mergeSort]

end KalshiEV

namespace KalshiEV

/-- Once the hourly counter has reached the cap, the per-edge loop emits
nothing and leaves the counter unchanged. -/
theorem signalLoop_of_maxed (kellyFraction maxPositionUsd : ℚ)
    (maxTradesPerHour : ℕ) (portfolio : Portfolio) (edges : List Edge)
    (trades : ℕ) (remaining : ℚ) (h : trades ≥ maxTradesPerHour) :
    signalLoop kellyFraction maxPositionUsd maxTradesPerHour portfolio edges
      trades remaining = ([], trades) := by
  cases edges with
  | nil => rfl
  | cons e rest => simp [signalLoop, h]

/-- C3: `generateSignals` emits nothing while a breaker is tripped: a daily
loss at or above the limit empties the cycle; an hourly counter at the cap
empties the call and leaves the state unchanged — so later calls inside the
same window are also empty — and only once more than 3600000 ms have elapsed
does the counter reset to zero with the window restarting at the call time. -/
theorem generateSignals_circuit_breakers (s : RiskState) (now now₂ : ℤ)
    (edges edges₂ : List Edge) (portfolio portfolio₂ : Portfolio) :
    (s.dailyLoss ≥ s.dailyLossLimit →
      (generateSignals s now edges portfolio).1 = []) ∧
    (s.tradesThisHour ≥ s.maxTradesPerHour → now - s.lastHourReset ≤ 3600000 →
      (generateSignals s now edges portfolio).1 = [] ∧
      (generateSignals s now edges portfolio).2 = s ∧
      (now₂ - s.lastHourReset ≤ 3600000 →
        (generateSignals (generateSignals s now edges portfolio).2 now₂ edges₂
          portfolio₂).1 = [])) ∧
    (now - s.lastHourReset > 3600000 →
      (resetHourlyCounterIfNeeded s now).tradesThisHour = 0 ∧
      (resetHourlyCounterIfNeeded s now).lastHourReset = now) := by
  refine ⟨?_, ?_, ?_⟩
  · intro h
    have hd : (resetHourlyCounterIfNeeded s now).dailyLoss = s.dailyLoss := by
      unfold resetHourlyCounterIfNeeded
      split_ifs <;> rfl
    have hdl : (resetHourlyCounterIfNeeded s now).dailyLossLimit
        = s.dailyLossLimit := by
      unfold resetHourlyCounterIfNeeded
      split_ifs <;> rfl
    simp only [generateSignals]
    rw [if_pos (by rw [hd, hdl]; exact h)]
  · intro htr hwin
    have hcall : ∀ (n : ℤ) (es : List Edge) (pf : Portfolio),
        n - s.lastHourReset ≤ 3600000 →
        (generateSignals s n es pf).1 = [] ∧
        (generateSignals s n es pf).2 = s := by
      intro n es pf hw
      have hreset : resetHourlyCounterIfNeeded s n = s := by
        unfold resetHourlyCounterIfNeeded
        rw [if_neg (by omega)]
      simp only [generateSignals, hreset]
      split_ifs with hd
      · exact ⟨rfl, rfl⟩
      · rw [signalLoop_of_maxed _ _ _ _ _ _ _ htr]
        exact ⟨rfl, rfl⟩
    refine ⟨(hcall now edges portfolio hwin).1,
      (hcall now edges portfolio hwin).2, ?_⟩
    intro hwin₂
    rw [(hcall now edges portfolio hwin).2]
    exact (hcall now₂ edges₂ portfolio₂ hwin₂).1
  · intro h
    unfold resetHourlyCounterIfNeeded
    rw [if_pos h]
    exact ⟨rfl, rfl⟩

end KalshiEV

namespace KalshiEV

/-- Witness for C3: with the hourly counter at its cap of 20 inside the
window, a qualifying edge produces no signal and the state is untouched; with
the counter fresh the same edge does produce a signal; with the daily loss at
its limit nothing is produced; and a call after the window elapses resets the
counter and restarts the window. -/
theorem generateSignals_circuit_breakers_witness :
    (rsC3.tradesThisHour ≥ rsC3.maxTradesPerHour ∧
      (1000000:ℤ) - rsC3.lastHourReset ≤ 3600000) ∧
    (generateSignals rsC3 1000000 [eC1] pf0).1 = [] ∧
    (generateSignals rsC3 1000000 [eC1] pf0).2 = rsC3 ∧
    (generateSignals rsC3Open 1000000 [eC1] pf0).1 = [sigC1] ∧
    (rsC3Loss.dailyLoss ≥ rsC3Loss.dailyLossLimit ∧
      (generateSignals rsC3Loss 1000000 [eC1] pf0).1 = []) ∧
    ((4000001:ℤ) - rsC3.lastHourReset > 3600000 ∧
      (resetHourlyCounterIfNeeded rsC3 4000001).tradesThisHour = 0 ∧
      (resetHourlyCounterIfNeeded rsC3 4000001).lastHourReset = 4000001) := by
  have h1 : rsC3.tradesThisHour ≥ rsC3.maxTradesPerHour := by norm_num [rsC3]
  have h2 : (1000000:ℤ) - rsC3.lastHourReset ≤ 3600000 := by norm_num [rsC3]
  have h3 : rsC3Loss.dailyLoss ≥ rsC3Loss.dailyLossLimit := by
    norm_num [rsC3Loss]
  have h4 : (4000001:ℤ) - rsC3.lastHourReset > 3600000 := by norm_num [rsC3]
  have main := generateSignals_circuit_breakers rsC3 1000000 1000000
    [eC1] [eC1] pf0 pf0
  have mainLoss := generateSignals_circuit_breakers rsC3Loss 1000000 1000000
    [eC1] [eC1] pf0 pf0
  have mainReset := generateSignals_circuit_breakers rsC3 4000001 4000001
    [eC1] [eC1] pf0 pf0
  refine ⟨⟨h1, h2⟩, (main.2.1 h1 h2).1, (main.2.1 h1 h2).2.1, ?_,
    ⟨h3, mainLoss.1 h3⟩, ⟨h4, (mainReset.2.2 h4).1, (mainReset.2.2 h4).2⟩⟩
  norm_num [generateSignals, resetHourlyCounterIfNeeded, signalLoop,
    sizePosition, rsC3Open, pf0, eC1, mEx, fEx62, sigC1]

end KalshiEV

namespace KalshiEV

/-- Replacing every entry matching a key leaves `find?` for that key at the
replacement, provided some entry matches and the replacement matches. -/
theorem find?_map_if (t : String) (newPos : Position)
    (hnew : (newPos.ticker == t) = true) :
    ∀ ps : List Position, (∃ x ∈ ps, (x.ticker == t) = true) →
      (ps.map (fun p => if p.ticker == t then newPos else p)).find?
        (fun p => p.ticker == t) = some newPos := by
  intro ps
  induction ps with
  | nil => intro h; simp at h
  | cons a rest ih =>
    intro hex
    by_cases ha : (a.ticker == t) = true
    · simp only [List.map_cons, if_pos ha]
      exact List.find?_cons_of_pos _ hnew
    · simp only [List.map_cons, if_neg ha]
      rw [List.find?_cons_of_neg _ (by simpa using ha)]
      apply ih
      rcases hex with ⟨x, hx, hpx⟩
      rcases List.mem_cons.mp hx with rfl | hx'
      · exact absurd hpx ha
      · exact ⟨x, hx', hpx⟩

/-- Writing to a present key makes `find?` for that key return the new
entry. -/
theorem find?_mapSet (ps : List Position) (t : String) (newPos : Position)
    (hex : ∃ x ∈ ps, (x.ticker == t) = true)
    (hnew : (newPos.ticker == t) = true) :
    (mapSet ps t newPos).find? (fun p => p.ticker == t) = some newPos := by
  unfold mapSet
  rw [if_pos (List.any_eq_true.mpr hex)]
  exact find?_map_if t newPos hnew ps hex

/-- C7: filling a signal onto an existing same-side position merges it by
volume-weighted cost averaging: the stored position's count becomes
`oldCount + signalCount` and its average price
`(oldAvg×oldCount + limitPrice×signalCount) / (oldCount + signalCount)`. -/
theorem execute_merges_same_side (s : TraderState) (sig : TradeSignal)
    (existing : Position)
    (hfind : s.positions.find? (fun p => p.ticker == sig.edge.ticker)
      = some existing)
    (hside : existing.side = sig.side)
    (hcost : (sig.contracts : ℚ) * sig.limitPrice / 100 ≤ s.balance) :
    (execute s sig).1.filled = true ∧
    (execute s sig).2.positions.find? (fun p => p.ticker == sig.edge.ticker)
      = some { existing with
          contracts := existing.contracts + sig.contracts
          avgPrice := (existing.avgPrice * (existing.contracts : ℚ)
            + sig.limitPrice * (sig.contracts : ℚ))
            / ((existing.contracts : ℚ) + (sig.contracts : ℚ)) } := by
  have hpred : (existing.ticker == sig.edge.ticker) = true := by
    simpa using List.find?_some hfind
  simp only [execute, hfind, if_neg (not_lt.mpr hcost), if_pos hside]
  refine ⟨trivial, ?_⟩
  rw [find?_mapSet s.positions sig.edge.ticker
      { existing with
        contracts := existing.contracts + sig.contracts
        avgPrice := (existing.avgPrice * (existing.contracts : ℚ)
          + sig.limitPrice * (sig.contracts : ℚ))
          / ((existing.contracts + sig.contracts : ℤ) : ℚ) }
      ⟨existing, List.mem_of_find?_eq_some hfind, hpred⟩ hpred]
  push_cast
  rfl

end KalshiEV

namespace KalshiEV

/-- Witness for C7: filling 10 contracts at 40¢ and then 10 same-side
contracts at 60¢ leaves one position of 20 contracts at an average of 50¢. -/
theorem execute_merges_same_side_witness :
    (execute (TraderState.mk 1000 1000 []) sig40).2 = sA ∧
    (sA.positions.find? (fun p => p.ticker == sig60.edge.ticker) = some posA ∧
      posA.side = sig60.side ∧
      (sig60.contracts : ℚ) * sig60.limitPrice / 100 ≤ sA.balance) ∧
    (execute sA sig60).1.filled = true ∧
    (execute sA sig60).2.positions.find?
        (fun p => p.ticker == sig60.edge.ticker)
      = some { posA with contracts := 20, avgPrice := 50 } := by
  have hf : sA.positions.find? (fun p => p.ticker == sig60.edge.ticker)
      = some posA := by
    norm_num [sA, posA, sig60, eC1, List.find?]
  have hs : posA.side = sig60.side := rfl
  have hc : (sig60.contracts : ℚ) * sig60.limitPrice / 100 ≤ sA.balance := by
    norm_num [sig60, sA]
  have h := execute_merges_same_side sA sig60 posA hf hs hc
  refine ⟨?_, ⟨hf, hs, hc⟩, h.1, ?_⟩
  · norm_num [execute, mapSet, sA, posA, sig40, eC1, mEx, fEx62]
  · rw [h.2]
    norm_num [posA, sig60]

end KalshiEV

namespace KalshiEV

/-- Total exposure is the sum of per-position cost bases. -/
theorem totalExposure_eq_sum (ps : List Position) :
    totalExposure ps
      = (ps.map (fun p => (p.contracts : ℚ) * p.avgPrice / 100)).sum := by
  suffices h : ∀ c : ℚ, ps.foldl
      (fun sum p => sum + (p.contracts : ℚ) * p.avgPrice / 100) c
      = c + (ps.map (fun p => (p.contracts : ℚ) * p.avgPrice / 100)).sum by
    simpa [totalExposure] using h 0
  induction ps with
  | nil => intro c; simp
  | cons a rest ih =>
    intro c
    simp only [List.foldl_cons, List.map_cons, List.sum_cons, ih]
    ring

/-- Replacing the unique entry of a key changes the exposure sum by the
difference of the cost bases. -/
theorem sum_map_replace (t : String) (newPos : Position) :
    ∀ (ps : List Position) (ex : Position),
      (ps.map Position.ticker).Nodup →
      ps.find? (fun p => p.ticker == t) = some ex →
      ((ps.map (fun p => if p.ticker == t then newPos else p)).map
          (fun p => (p.contracts : ℚ) * p.avgPrice / 100)).sum
        = (ps.map (fun p => (p.contracts : ℚ) * p.avgPrice / 100)).sum
            - (ex.contracts : ℚ) * ex.avgPrice / 100
            + (newPos.contracts : ℚ) * newPos.avgPrice / 100 := by
  intro ps
  induction ps with
  | nil => intro ex _ h; simp at h
  | cons a rest ih =>
    intro ex hnd hfind
    by_cases ha : (a.ticker == t) = true
    · rw [@List.find?_cons_of_pos _ (fun p => p.ticker == t) a rest ha] at hfind
      injection hfind with h'
      subst h'
      have hmiss : ∀ x ∈ rest, ¬ (x.ticker == t) = true := by
        intro x hx hxt
        have hat : a.ticker = t := by simpa using ha
        have hxtt : x.ticker = t := by simpa using hxt
        have hmem : a.ticker ∈ rest.map Position.ticker := by
          rw [hat, ← hxtt]
          exact List.mem_map_of_mem Position.ticker hx
        exact (List.nodup_cons.mp hnd).1 hmem
      have hrest : rest.map (fun p => if p.ticker == t then newPos else p)
          = rest := by
        have hid : ∀ x ∈ rest, (if x.ticker == t then newPos else x) = x := by
          intro x hx
          rw [if_neg (hmiss x hx)]
        calc rest.map (fun p => if p.ticker == t then newPos else p)
            = rest.map id := List.map_congr_left hid
          _ = rest := List.map_id rest
      simp only [List.map_cons, if_pos ha, hrest, List.sum_cons]
      ring
    · rw [@List.find?_cons_of_neg _ (fun p => p.ticker == t) a rest
        (by simpa using ha)] at hfind
      have hnd' := (List.nodup_cons.mp hnd).2
      simp only [List.map_cons, if_neg ha, List.sum_cons, ih ex hnd' hfind]
      ring

end KalshiEV

namespace KalshiEV

/-- C10 (amended): for a ledger with uniquely-keyed, positively-sized
positions, a call to `execute` whose signal has a positive contract count and
meets no opposite-side position on its ticker leaves
`balance + totalExposure` — and hence the realized P&L that `getPortfolio`
reports — unchanged: an unfilled call changes nothing and a filled call
debits cash by exactly the cost basis it adds. -/
theorem execute_preserves_capital (s : TraderState) (sig : TradeSignal)
    (hpos : ∀ p ∈ s.positions, 0 < p.contracts)
    (hsig : 0 < sig.contracts)
    (hnd : (s.positions.map Position.ticker).Nodup)
    (hside : ∀ ex, s.positions.find? (fun p => p.ticker == sig.edge.ticker)
      = some ex → ex.side = sig.side) :
    (execute s sig).2.balance + totalExposure (execute s sig).2.positions
      = s.balance + totalExposure s.positions ∧
    (getPortfolio (execute s sig).2).realizedPnl
      = (getPortfolio s).realizedPnl := by
  have hinit : (execute s sig).2.initialBalance = s.initialBalance := by
    simp only [execute]
    split_ifs <;> rfl
  have h1 : (execute s sig).2.balance
      + totalExposure (execute s sig).2.positions
      = s.balance + totalExposure s.positions := by
    by_cases hcost : (sig.contracts : ℚ) * sig.limitPrice / 100 > s.balance
    · simp only [execute, if_pos hcost]
    · simp only [execute, if_neg hcost]
      cases hfind : s.positions.find? (fun p => p.ticker == sig.edge.ticker) with
      | none =>
        simp only [hfind]
        have hnone := List.find?_eq_none.mp hfind
        have hany : s.positions.any (fun p => p.ticker == sig.edge.ticker)
            = false := by
          rw [List.any_eq_false]
          exact hnone
        unfold mapSet
        rw [if_neg (by simp [hany])]
        rw [totalExposure_eq_sum, totalExposure_eq_sum]
        simp only [List.map_append, List.sum_append, List.map_cons,
          List.map_nil, List.sum_cons, List.sum_nil]
        ring
      | some ex =>
        have hs := hside ex hfind
        simp only [hfind, if_pos hs]
        have hexmem := List.mem_of_find?_eq_some hfind
        have hexpos := hpos ex hexmem
        have htot : ((ex.contracts + sig.contracts : ℤ) : ℚ) ≠ 0 := by
          have hlt : (0:ℤ) < ex.contracts + sig.contracts := by omega
          exact_mod_cast hlt.ne'
        have hanys : s.positions.any (fun p => p.ticker == sig.edge.ticker)
            = true :=
          List.any_eq_true.mpr ⟨ex, hexmem, by simpa using List.find?_some hfind⟩
        unfold mapSet
        rw [if_pos hanys]
        rw [totalExposure_eq_sum, totalExposure_eq_sum]
        rw [sum_map_replace sig.edge.ticker
          { ex with
            contracts := ex.contracts + sig.contracts
            avgPrice := (ex.avgPrice * (ex.contracts : ℚ)
              + sig.limitPrice * (sig.contracts : ℚ))
              / ((ex.contracts + sig.contracts : ℤ) : ℚ) }
          s.positions ex hnd hfind]
        dsimp only
        have htot' : (ex.contracts : ℚ) + (sig.contracts : ℚ) ≠ 0 := by
          push_cast at htot
          exact htot
        push_cast
        field_simp
        ring
  refine ⟨h1, ?_⟩
  simp only [getPortfolio]
  rw [hinit]
  linarith [h1]

end KalshiEV

namespace KalshiEV

/-- Counterexample for C10 as stated: filling a 1-contract NO signal at 40¢
onto a ledger holding 10 YES contracts at 50¢ on the same ticker replaces the
position, dropping its $5 cost basis: cash plus exposure falls from $105 to
$100, so `execute` does not always preserve `balance + totalExposure`. -/
theorem execute_capital_counterexample :
    (execute tsC10 sigNo).1.filled = true ∧
    ¬ ((execute tsC10 sigNo).2.balance
        + totalExposure (execute tsC10 sigNo).2.positions
      = tsC10.balance + totalExposure tsC10.positions) := by
  constructor <;>
    norm_num [execute, mapSet, totalExposure, tsC10, sigNo, posC10, eC1,
      mEx, fEx62, List.find?, List.foldl]

/-- Witness for the amended C10: a same-side 10-contract fill at 60¢ onto a
uniquely-keyed ledger of positive positions preserves cash plus exposure. -/
theorem execute_preserves_capital_witness :
    ((∀ p ∈ sA.positions, 0 < p.contracts) ∧ (0:ℤ) < sig60.contracts ∧
      (sA.positions.map Position.ticker).Nodup ∧
      (∀ ex, sA.positions.find? (fun p => p.ticker == sig60.edge.ticker)
        = some ex → ex.side = sig60.side)) ∧
    (execute sA sig60).2.balance + totalExposure (execute sA sig60).2.positions
      = sA.balance + totalExposure sA.positions ∧
    (getPortfolio (execute sA sig60).2).realizedPnl
      = (getPortfolio sA).realizedPnl := by
  have hpos : ∀ p ∈ sA.positions, 0 < p.contracts := by
    intro p hp
    simp only [sA, List.mem_singleton] at hp
    subst hp
    norm_num [posA]
  have hsig : (0:ℤ) < sig60.contracts := by norm_num [sig60]
  have hnd : (sA.positions.map Position.ticker).Nodup := by
    simp [sA]
  have hside : ∀ ex, sA.positions.find?
      (fun p => p.ticker == sig60.edge.ticker) = some ex →
      ex.side = sig60.side := by
    intro ex h
    norm_num [sA, posA, sig60, eC1, List.find?] at h
    rw [← h]
    rfl
  have h := execute_preserves_capital sA sig60 hpos hsig hnd hside
  exact ⟨⟨hpos, hsig, hnd, hside⟩, h.1, h.2⟩

end KalshiEV

namespace KalshiEV

/-- Counterexample for C8 as stated: on a market with YES midpoint 94.5¢ and
threshold 0.05, a raw probability of 1.0 yields an emitted YES edge of 0.055,
while the clamped probability 0.99 yields edge 0.045 and no output — so the
core does not behave as if probabilities were first clamped into
[0.01, 0.99]. -/
theorem core_clamp_counterexample :
    detectEdges (1/20) [mC8] ([fC8].map clampForecast) = [] ∧
    detectEdges (1/20) [mC8] [fC8] ≠ [] := by
  constructor <;>
    norm_num [detectEdges, detectEdgesForMarket, forecastLookup,
      getImpliedProb, clampForecast, clamp, buildEdge, mC8, fC8,
      List.mergeSort, List.find?]

/-- C8 (amended): the [0.01, 0.99] probability clamp lives in the
forecaster's response parser, upstream of the core: every clamped probability
lands in [0.01, 0.99], and on forecasts already in that range — all the
parser ever hands over — `detectEdges` coincides with its clamped-first
behaviour; the core itself does not re-clamp. -/
theorem clamp_upstream_of_core (minEdge : ℚ) (markets : List KalshiMarket)
    (forecasts : List Forecast)
    (h : ∀ f ∈ forecasts,
      1/100 ≤ f.modelProbYes ∧ f.modelProbYes ≤ 99/100) :
    (∀ g : Forecast, 1/100 ≤ (clampForecast g).modelProbYes ∧
      (clampForecast g).modelProbYes ≤ 99/100) ∧
    forecasts.map clampForecast = forecasts ∧
    detectEdges minEdge markets (forecasts.map clampForecast)
      = detectEdges minEdge markets forecasts := by
  have hbounds : ∀ g : Forecast, 1/100 ≤ (clampForecast g).modelProbYes ∧
      (clampForecast g).modelProbYes ≤ 99/100 := by
    intro g
    unfold clampForecast clamp
    exact ⟨le_max_left _ _, max_le (by norm_num) (min_le_left _ _)⟩
  have hmap : forecasts.map clampForecast = forecasts := by
    have hid : ∀ f ∈ forecasts, clampForecast f = f := by
      intro f hf
      obtain ⟨h1, h2⟩ := h f hf
      unfold clampForecast clamp
      rw [min_eq_right h2, max_eq_right h1]
    calc forecasts.map clampForecast
        = forecasts.map id := List.map_congr_left hid
      _ = forecasts := List.map_id _
  exact ⟨hbounds, hmap, by rw [hmap]⟩

/-- Witness for the amended C8: the in-range forecast of 62% is untouched by
the clamp and `detectEdges` coincides with its clamped-first run. -/
theorem clamp_upstream_of_core_witness :
    (∀ f ∈ [fEx62],
      (1:ℚ)/100 ≤ f.modelProbYes ∧ f.modelProbYes ≤ 99/100) ∧
    [fEx62].map clampForecast = [fEx62] ∧
    detectEdges (1/20) [mEx] ([fEx62].map clampForecast)
      = detectEdges (1/20) [mEx] [fEx62] := by
  have h : ∀ f ∈ [fEx62],
      (1:ℚ)/100 ≤ f.modelProbYes ∧ f.modelProbYes ≤ 99/100 := by
    intro f hf
    simp only [List.mem_singleton] at hf
    subst hf
    norm_num [fEx62]
  have main := clamp_upstream_of_core (1/20) [mEx] [fEx62] h
  exact ⟨h, main.2.1, main.2.2⟩

end KalshiEV
